import Mathlib

/-!
Shallow embedding of the execution core of the Trinity full-text search
engine: the per-document term-position tracker `DocWordsSpace`
(src/docwordspace.h) and the sequential/parallel multi-source query
executors (src/exec.h), together with proofs of the specified properties.

Machine integers are modelled as `Nat`; the `uint16_t` generation counter
`curSeq` never overflows because the code wraps it manually at
`UINT16_MAX`, which the embedding reproduces literally.
-/

namespace Trinity

/-- Value of `UINT16_MAX`, the wrap point of the `uint16_t` generation
counter `curSeq`. -/
def UINT16_MAX : Nat := 65535

/-- One slot of the position table: `struct position { uint16_t docSeq;
exec_term_id_t termID; }` from src/docwordspace.h. -/
structure Position where
  docSeq : Nat
  termID : Nat
deriving DecidableEq, Repr

/-- The all-zero slot, the state `calloc` and `memset` leave a slot in. -/
def Position.zero : Position := ⟨0, 0⟩

/-- The `DocWordsSpace` state: the `positions` buffer, the fixed `maxPos`
bound, and the rolling generation counter `curSeq`
(src/docwordspace.h, fields at lines 28-30). -/
structure DocWordsSpace where
  positions : List Position
  maxPos : Nat
  curSeq : Nat
deriving DecidableEq, Repr

namespace DocWordsSpace

/-- Reading `positions[i]`; out-of-range reads (never performed under the
documented preconditions) default to the zero slot. -/
def slot (d : DocWordsSpace) (i : Nat) : Position :=
  d.positions.getD i Position.zero

/-- Modelled from the spec: the constructor `DocWordsSpace(max)`
(src/docwordspace.h lines 38-43) calls `require(max && max <=
Trinity::Limits::MaxPosition)`, where `require` (runtime.h) and the
concrete value of `Trinity::Limits::MaxPosition` and
`Trinity::Limits::MaxPhraseSize` (common.h) are outside src/; per the
spec, construction fails when `max == 0` or `max` exceeds the system
limit, and otherwise `calloc` yields `max + 1 + MaxPhraseSize` all-zero
slots with `curSeq` started at 1. The two limits are parameters here. -/
def make (maxPosLimit maxPhraseSize max : Nat) : Option DocWordsSpace :=
  if max ≠ 0 ∧ max ≤ maxPosLimit then
    some { positions := List.replicate (max + 1 + maxPhraseSize) Position.zero
           maxPos := max
           curSeq := 1 }
  else
    none

/-- Embedding of `reset()` (src/docwordspace.h lines 50-68): when `curSeq
== UINT16_MAX`, `memset` the first `maxPos + 1` slots to zero and set
`curSeq = 1`; otherwise `++curSeq`. -/
def reset (d : DocWordsSpace) : DocWordsSpace :=
  if d.curSeq = UINT16_MAX then
    { d with
      positions :=
        List.replicate (d.maxPos + 1) Position.zero ++ d.positions.drop (d.maxPos + 1)
      curSeq := 1 }
  else
    { d with curSeq := d.curSeq + 1 }

/-- Embedding of `set(termID, pos)` (src/docwordspace.h lines 71-74):
`positions[pos] = {curSeq, termID}`. -/
def set (d : DocWordsSpace) (termID pos : Nat) : DocWordsSpace :=
  { d with positions := d.positions.set pos ⟨d.curSeq, termID⟩ }

/-- Embedding of `test(termID, pos)` (src/docwordspace.h lines 96-99):
`positions[pos].docSeq == curSeq && positions[pos].termID == termID`. -/
def test (d : DocWordsSpace) (termID pos : Nat) : Bool :=
  (d.slot pos).docSeq == d.curSeq && (d.slot pos).termID == termID

/-- Embedding of `unset(pos)` (src/docwordspace.h lines 135-138):
`positions[pos].docSeq = 0`, leaving the stored `termID` untouched. -/
def unset (d : DocWordsSpace) (pos : Nat) : DocWordsSpace :=
  { d with positions := d.positions.set pos ⟨0, (d.slot pos).termID⟩ }

/-- States reachable through the public interface with the documented
preconditions: construction with some valid `max`, then any sequence of
`set` (with a `uint16_t` term id and `0 < pos ≤ maxPos`), `unset`
(with `0 < pos ≤ maxPos`) and `reset`. -/
inductive Reachable (maxPosLimit maxPhraseSize : Nat) : DocWordsSpace → Prop where
  | init (max : Nat) (d : DocWordsSpace)
      (h : make maxPosLimit maxPhraseSize max = some d) :
      Reachable maxPosLimit maxPhraseSize d
  | set (d : DocWordsSpace) (T p : Nat)
      (hd : Reachable maxPosLimit maxPhraseSize d)
      (hT : T ≤ UINT16_MAX) (hp : 0 < p) (hpm : p ≤ d.maxPos) :
      Reachable maxPosLimit maxPhraseSize (d.set T p)
  | unset (d : DocWordsSpace) (p : Nat)
      (hd : Reachable maxPosLimit maxPhraseSize d)
      (hp : 0 < p) (hpm : p ≤ d.maxPos) :
      Reachable maxPosLimit maxPhraseSize (d.unset p)
  | reset (d : DocWordsSpace)
      (hd : Reachable maxPosLimit maxPhraseSize d) :
      Reachable maxPosLimit maxPhraseSize d.reset

/-- Invariant bundle of every reachable state: the buffer has its
constructed length, `maxPos` is valid, `curSeq` stays within
`[1, UINT16_MAX]`, the guard region beyond `maxPos` is all-zero, and no
slot carries a generation above `curSeq`. -/
def Inv (maxPosLimit maxPhraseSize : Nat) (d : DocWordsSpace) : Prop :=
  d.positions.length = d.maxPos + 1 + maxPhraseSize ∧
  0 < d.maxPos ∧ d.maxPos ≤ maxPosLimit ∧
  1 ≤ d.curSeq ∧ d.curSeq ≤ UINT16_MAX ∧
  (∀ i, d.maxPos < i → d.slot i = Position.zero) ∧
  (∀ i, (d.slot i).docSeq ≤ d.curSeq)

end DocWordsSpace

/-- Embedding of the result-collection loop of `exec_query_par`
(src/exec.h lines 79-85): while the futures vector is non-empty, read its
back element with `futures.back()`, append it to `out`, and `pop_back()`. -/
def drain_back {F : Type} (futures out : List F) : List F :=
  match futures with
  | [] => out
  | f :: fs => drain_back (f :: fs).dropLast (out ++ [(f :: fs).getLast (List.cons_ne_nil f fs)])
termination_by futures.length
decreasing_by
  simp [List.length_dropLast]

/-- Embedding of the sequential collection overload of `exec_query`
(src/exec.h lines 21-39). The loop body — fetch `collection->sources[i]`
and `collection->scanner_registry_for(i)`, construct a fresh filter from
the forwarded constructor arguments, and run the single-source
`exec_query` (declared at src/exec.h line 10, defined outside src/) on it
— is abstracted as `run i`, the content of the filter produced for source
index `i`; the loop appends `run i` for `i = 0, 1, ..., n-1` in ascending
order, where `n = collection->sources.size()`. -/
def exec_query_collection {F : Type} (run : Nat → F) (n : Nat) : List F :=
  (List.range n).map run

/-- Number of `std::async` tasks spawned by `exec_query_par`
(src/exec.h lines 42-88): zero when `n == 0` (immediate empty return) or
`n == 1` (the single source is executed inline on the calling thread);
otherwise one task is pushed onto the futures vector per source index. -/
def exec_query_par_spawned (n : Nat) : Nat :=
  if n = 0 then 0 else if n = 1 then 0 else n

/-- Embedding of `exec_query_par` (src/exec.h lines 42-88), with the same
per-source abstraction `run` as `exec_query_collection`: `n == 0` returns
the empty vector, `n == 1` runs source 0 inline and returns a singleton,
and otherwise one future per source index `0..n-1` is spawned in order
and the futures vector is then drained from the back. -/
def exec_query_par {F : Type} (run : Nat → F) (n : Nat) : List F :=
  if n = 0 then []
  else if n = 1 then [run 0]
  else drain_back ((List.range n).map run) []

/-- Concrete sample state: the successful construction
`DocWordsSpace.make 100 10 5`, used to instantiate the theorems below at
a computable input. -/
def sampleSpace : DocWordsSpace :=
  { positions := List.replicate 16 Position.zero, maxPos := 5, curSeq := 1 }

namespace DocWordsSpace

theorem slot_set_self (d : DocWordsSpace) (T p : Nat) (hp : p < d.positions.length) :
    (d.set T p).slot p = ⟨d.curSeq, T⟩ := by
  simp [DocWordsSpace.set, slot, List.getD_eq_getElem?_getD, List.getElem?_set_self, hp]

theorem slot_set_ne (d : DocWordsSpace) (T p q : Nat) (h : p ≠ q) :
    (d.set T p).slot q = d.slot q := by
  simp [DocWordsSpace.set, slot, List.getD_eq_getElem?_getD, List.getElem?_set_ne h]

theorem slot_unset_self (d : DocWordsSpace) (p : Nat) (hp : p < d.positions.length) :
    (d.unset p).slot p = ⟨0, (d.slot p).termID⟩ := by
  simp [DocWordsSpace.unset, slot, List.getD_eq_getElem?_getD, List.getElem?_set_self, hp]

theorem slot_unset_ne (d : DocWordsSpace) (p q : Nat) (h : p ≠ q) :
    (d.unset p).slot q = d.slot q := by
  simp [DocWordsSpace.unset, slot, List.getD_eq_getElem?_getD, List.getElem?_set_ne h]

theorem reset_of_ne (d : DocWordsSpace) (h : d.curSeq ≠ UINT16_MAX) :
    d.reset = { d with curSeq := d.curSeq + 1 } := by
  simp [reset, h]

theorem reset_curSeq_of_max (d : DocWordsSpace) (h : d.curSeq = UINT16_MAX) :
    d.reset.curSeq = 1 := by
  simp [reset, h]

theorem slot_reset_low (d : DocWordsSpace) (h : d.curSeq = UINT16_MAX) (i : Nat)
    (hi : i ≤ d.maxPos) : d.reset.slot i = Position.zero := by
  have hi' : i < (List.replicate (d.maxPos + 1) Position.zero).length := by
    simp [List.length_replicate]; omega
  simp only [reset, if_pos h, slot, List.getD_eq_getElem?_getD]
  rw [List.getElem?_append]
  simp only [List.length_replicate]
  rw [if_pos (by omega)]
  simp [List.getElem?_replicate, Nat.lt_succ_of_le hi]

theorem slot_reset_high (d : DocWordsSpace) (h : d.curSeq = UINT16_MAX) (i : Nat)
    (hi : d.maxPos < i) : d.reset.slot i = d.slot i := by
  simp only [reset, if_pos h, slot, List.getD_eq_getElem?_getD]
  rw [List.getElem?_append]
  simp only [List.length_replicate]
  rw [if_neg (by omega)]
  rw [List.getElem?_drop]
  congr 2
  omega

theorem length_reset (d : DocWordsSpace) (hlen : d.maxPos + 1 ≤ d.positions.length) :
    d.reset.positions.length = d.positions.length := by
  by_cases h : d.curSeq = UINT16_MAX
  · simp only [reset, if_pos h, List.length_append, List.length_replicate, List.length_drop]
    omega
  · simp [reset, h]

theorem inv_of_reachable {maxPosLimit maxPhraseSize : Nat} {d : DocWordsSpace}
    (hr : Reachable maxPosLimit maxPhraseSize d) : Inv maxPosLimit maxPhraseSize d := by
  induction hr with
  | init max d h =>
    unfold make at h
    split at h
    · rename_i hc
      cases h
      refine ⟨by simp [List.length_replicate], ?_, ?_, ?_, ?_, ?_, ?_⟩
      · exact Nat.pos_of_ne_zero hc.1
      · exact hc.2
      · exact le_refl 1
      · simp [UINT16_MAX]
      · intro i _
        simp [slot, List.getD_eq_getElem?_getD, List.getElem?_replicate]
        split <;> simp
      · intro i
        simp [slot, List.getD_eq_getElem?_getD, List.getElem?_replicate]
        split <;> simp [Position.zero]
    · cases h
  | set d T p hd hT hp hpm ih =>
    obtain ⟨hlen, hm0, hml, hc1, hcM, hguard, hseq⟩ := ih
    have hplt : p < d.positions.length := by omega
    refine ⟨by simpa [DocWordsSpace.set] using hlen, hm0, hml, hc1, hcM, ?_, ?_⟩
    · intro i hi
      have hi' : d.maxPos < i := hi
      rw [slot_set_ne d T p i (by omega)]
      exact hguard i hi'
    · intro i
      by_cases hip : p = i
      · subst hip
        rw [slot_set_self d T p hplt]
        exact le_rfl
      · rw [slot_set_ne d T p i hip]
        exact hseq i
  | unset d p hd hp hpm ih =>
    obtain ⟨hlen, hm0, hml, hc1, hcM, hguard, hseq⟩ := ih
    have hplt : p < d.positions.length := by omega
    refine ⟨by simpa [DocWordsSpace.unset] using hlen, hm0, hml, hc1, hcM, ?_, ?_⟩
    · intro i hi
      have hi' : d.maxPos < i := hi
      rw [slot_unset_ne d p i (by omega)]
      exact hguard i hi'
    · intro i
      by_cases hip : p = i
      · subst hip
        rw [slot_unset_self d p hplt]
        exact Nat.zero_le _
      · rw [slot_unset_ne d p i hip]
        exact hseq i
  | reset d hd ih =>
    obtain ⟨hlen, hm0, hml, hc1, hcM, hguard, hseq⟩ := ih
    have hlen' : d.reset.positions.length = d.positions.length :=
      length_reset d (by omega)
    have hmax : d.reset.maxPos = d.maxPos := by
      unfold reset; split <;> rfl
    by_cases h : d.curSeq = UINT16_MAX
    · refine ⟨by rw [hlen', hmax]; exact hlen, by rw [hmax]; exact hm0,
        by rw [hmax]; exact hml, ?_, ?_, ?_, ?_⟩
      · rw [reset_curSeq_of_max d h]
      · rw [reset_curSeq_of_max d h]; simp [UINT16_MAX]
      · intro i hi
        rw [hmax] at hi
        rw [slot_reset_high d h i hi]
        exact hguard i hi
      · intro i
        rw [reset_curSeq_of_max d h]
        by_cases hi : i ≤ d.maxPos
        · rw [slot_reset_low d h i hi]
          simp [Position.zero]
        · rw [slot_reset_high d h i (by omega)]
          rw [hguard i (by omega)]
          simp [Position.zero]
    · rw [reset_of_ne d h]
      refine ⟨hlen, hm0, hml, ?_, ?_, hguard, ?_⟩
      · show 1 ≤ d.curSeq + 1
        omega
      · show d.curSeq + 1 ≤ UINT16_MAX
        omega
      · intro i
        exact Nat.le_succ_of_le (hseq i)

theorem reachable_reset_iterate {maxPosLimit maxPhraseSize : Nat} {d : DocWordsSpace}
    (hr : Reachable maxPosLimit maxPhraseSize d) (k : Nat) :
    Reachable maxPosLimit maxPhraseSize (reset^[k] d) := by
  induction k with
  | zero => simpa using hr
  | succ k ih =>
    rw [Function.iterate_succ_apply']
    exact Reachable.reset _ ih

@[simp] theorem curSeq_set (d : DocWordsSpace) (T p : Nat) : (d.set T p).curSeq = d.curSeq := rfl

@[simp] theorem maxPos_set (d : DocWordsSpace) (T p : Nat) : (d.set T p).maxPos = d.maxPos := rfl

@[simp] theorem curSeq_unset (d : DocWordsSpace) (p : Nat) : (d.unset p).curSeq = d.curSeq := rfl

@[simp] theorem maxPos_unset (d : DocWordsSpace) (p : Nat) : (d.unset p).maxPos = d.maxPos := rfl

theorem maxPos_reset (d : DocWordsSpace) : d.reset.maxPos = d.maxPos := by
  unfold reset
  split <;> rfl

theorem test_stale (d : DocWordsSpace) (T p : Nat) (h : (d.slot p).docSeq ≠ d.curSeq) :
    d.test T p = false := by
  simp only [test, Bool.and_eq_false_iff]
  left
  simpa using h

theorem test_reset_false_all {maxPosLimit maxPhraseSize : Nat} {d : DocWordsSpace}
    (hr : Reachable maxPosLimit maxPhraseSize d) (T p : Nat) :
    d.reset.test T p = false := by
  obtain ⟨hlen, hm0, hml, hc1, hcM, hguard, hseq⟩ := inv_of_reachable hr
  by_cases h : d.curSeq = UINT16_MAX
  · apply test_stale
    rw [reset_curSeq_of_max d h]
    by_cases hp : p ≤ d.maxPos
    · rw [slot_reset_low d h p hp]
      simp [Position.zero]
    · rw [slot_reset_high d h p (by omega)]
      rw [hguard p (by omega)]
      simp [Position.zero]
  · apply test_stale
    rw [reset_of_ne d h]
    show (d.slot p).docSeq ≠ d.curSeq + 1
    have := hseq p
    omega

theorem roundtrip_of_reachable {maxPosLimit maxPhraseSize : Nat} {d : DocWordsSpace}
    (hr : Reachable maxPosLimit maxPhraseSize d) (T T2 p : Nat)
    (hp : 0 < p) (hpm : p ≤ d.maxPos) (hne : T2 ≠ T) :
    (d.set T p).test T p = true ∧ (d.set T p).test T2 p = false := by
  obtain ⟨hlen, hm0, hml, hc1, hcM, hguard, hseq⟩ := inv_of_reachable hr
  have hplt : p < d.positions.length := by omega
  constructor
  · simp [test, slot_set_self d T p hplt]
  · simp only [test, slot_set_self d T p hplt, curSeq_set, Bool.and_eq_false_iff]
    right
    simpa using fun h => hne h.symm

theorem curSeq_reset_iterate (d : DocWordsSpace) (j : Nat)
    (hj : d.curSeq + j ≤ UINT16_MAX) :
    (reset^[j] d).curSeq = d.curSeq + j := by
  induction j with
  | zero => simp
  | succ j ih =>
    have hj' : d.curSeq + j ≤ UINT16_MAX := by omega
    have h1 := ih hj'
    rw [Function.iterate_succ_apply']
    have hne : (reset^[j] d).curSeq ≠ UINT16_MAX := by omega
    rw [reset_of_ne _ hne]
    show (reset^[j] d).curSeq + 1 = d.curSeq + (j + 1)
    omega

theorem slot_reset_untouched (d : DocWordsSpace) (i : Nat) (hi : d.maxPos < i) :
    d.reset.slot i = d.slot i := by
  by_cases h : d.curSeq = UINT16_MAX
  · exact slot_reset_high d h i hi
  · rw [reset_of_ne d h]
    rfl

end DocWordsSpace

theorem drain_back_ne {F : Type} (futures out : List F) (h : futures ≠ []) :
    drain_back futures out = drain_back futures.dropLast (out ++ [futures.getLast h]) := by
  cases futures with
  | nil => exact absurd rfl h
  | cons f fs => rw [drain_back]

theorem drain_back_eq {F : Type} (futures : List F) :
    ∀ out, drain_back futures out = out ++ futures.reverse := by
  induction futures using List.reverseRecOn with
  | nil =>
    intro out
    simp [drain_back]
  | append_singleton l a ih =>
    intro out
    rw [drain_back_ne (l ++ [a]) out (by simp)]
    rw [List.dropLast_concat, List.getLast_concat]
    rw [ih]
    simp

theorem exec_query_par_eq_reverse {F : Type} (run : Nat → F) (n : Nat) (hn : 1 < n) :
    exec_query_par run n = ((List.range n).map run).reverse := by
  unfold exec_query_par
  rw [if_neg (by omega), if_neg (by omega), drain_back_eq]
  simp

namespace DocWordsSpace

/-- C2: in every reachable state, immediately after `set(T, p)` with
`0 < p ≤ maxPos`, `test(T, p)` is true and `test(T2, p)` is false for
every term id `T2 ≠ T`. -/
theorem set_roundtrip (maxPosLimit maxPhraseSize : Nat) (d : DocWordsSpace)
    (hr : Reachable maxPosLimit maxPhraseSize d) (T T2 p : Nat)
    (hp : 0 < p) (hpm : p ≤ d.maxPos) (hne : T2 ≠ T) :
    (d.set T p).test T p = true ∧ (d.set T p).test T2 p = false :=
  roundtrip_of_reachable hr T T2 p hp hpm hne

/-- Witness for C2 at the constructed state with `maxPos = 5`, setting
term 7 at position 3 and testing terms 7 and 8 there. -/
theorem set_roundtrip_witness :
    (sampleSpace.set 7 3).test 7 3 = true ∧ (sampleSpace.set 7 3).test 8 3 = false :=
  set_roundtrip 100 10 sampleSpace (Reachable.init 5 sampleSpace (by decide)) 7 8 3
    (by decide) (by decide) (by decide)

/-- C3: after `reset()`, `test(T, p)` is false for every term id `T` and
every in-range position `p`, whatever was set under prior generations;
and in any state a slot whose stored generation differs from `curSeq` is
logically empty — `test` is false there — regardless of its stored
term id. -/
theorem reset_clears_all (maxPosLimit maxPhraseSize : Nat) (d : DocWordsSpace)
    (hr : Reachable maxPosLimit maxPhraseSize d) :
    (∀ T p, 0 < p → p ≤ d.maxPos → d.reset.test T p = false) ∧
    (∀ T p, (d.slot p).docSeq ≠ d.curSeq → d.test T p = false) := by
  constructor
  · intro T p _ _
    exact test_reset_false_all hr T p
  · intro T p h
    exact test_stale d T p h

/-- Witness for C3: position 3 is set under the old generation, reset,
and then reads as unset; and a stale slot of the fresh state tests
false. -/
theorem reset_clears_all_witness :
    ((sampleSpace.set 7 3).reset).test 7 3 = false ∧ sampleSpace.test 9 2 = false := by
  have hr0 : Reachable 100 10 sampleSpace := Reachable.init 5 sampleSpace (by decide)
  have hr1 : Reachable 100 10 (sampleSpace.set 7 3) :=
    Reachable.set sampleSpace 7 3 hr0 (by decide) (by decide) (by decide)
  exact ⟨(reset_clears_all 100 10 _ hr1).1 7 3 (by decide) (by decide),
         (reset_clears_all 100 10 _ hr0).2 9 2 (by decide)⟩

/-- C4: `reset()` increments the generation counter by one except when it
equals `UINT16_MAX`, where it zeroes exactly the first `maxPos + 1` slots
(the guard region is untouched) and restarts the counter at 1; 65,535
consecutive resets from any reachable state cross the overflow branch,
keep the counter nonzero throughout, and preserve the round-trip and
reset-clears-all properties. -/
theorem reset_wraparound (maxPosLimit maxPhraseSize : Nat) (d : DocWordsSpace)
    (hr : Reachable maxPosLimit maxPhraseSize d) :
    (d.curSeq ≠ UINT16_MAX →
      d.reset.curSeq = d.curSeq + 1 ∧ d.reset.positions = d.positions) ∧
    (d.curSeq = UINT16_MAX → d.reset.curSeq = 1 ∧
      (∀ i, i ≤ d.maxPos → d.reset.slot i = Position.zero) ∧
      (∀ i, d.maxPos < i → d.reset.slot i = d.slot i)) ∧
    (∃ k, k < UINT16_MAX ∧ (reset^[k] d).curSeq = UINT16_MAX) ∧
    (∀ k, (reset^[k] d).curSeq ≠ 0) ∧
    (∀ T T2 p, 0 < p → p ≤ (reset^[UINT16_MAX] d).maxPos → T2 ≠ T →
      ((reset^[UINT16_MAX] d).set T p).test T p = true ∧
      ((reset^[UINT16_MAX] d).set T p).test T2 p = false) ∧
    (∀ T p, (reset^[UINT16_MAX] d).reset.test T p = false) := by
  obtain ⟨hlen, hm0, hml, hc1, hcM, hguard, hseq⟩ := inv_of_reachable hr
  refine ⟨?_, ?_, ?_, ?_, ?_, ?_⟩
  · intro h
    rw [reset_of_ne d h]
    exact ⟨rfl, rfl⟩
  · intro h
    exact ⟨reset_curSeq_of_max d h, fun i hi => slot_reset_low d h i hi,
           fun i hi => slot_reset_high d h i hi⟩
  · refine ⟨UINT16_MAX - d.curSeq, by omega, ?_⟩
    rw [curSeq_reset_iterate d _ (by omega)]
    omega
  · intro k
    obtain ⟨_, _, _, hc1i, _, _, _⟩ := inv_of_reachable (reachable_reset_iterate hr k)
    omega
  · intro T T2 p hp hpm hne
    exact roundtrip_of_reachable (reachable_reset_iterate hr UINT16_MAX) T T2 p hp hpm hne
  · intro T p
    exact test_reset_false_all (reachable_reset_iterate hr UINT16_MAX) T p

/-- Witness for C4: on the fresh state the non-overflow branch increments
the counter and leaves the buffer alone, and after 65,535 resets the
counter is still nonzero. -/
theorem reset_wraparound_witness :
    sampleSpace.reset.curSeq = 2 ∧ sampleSpace.reset.positions = sampleSpace.positions ∧
    (reset^[UINT16_MAX] sampleSpace).curSeq ≠ 0 := by
  have h := reset_wraparound 100 10 sampleSpace (Reachable.init 5 sampleSpace (by decide))
  have h1 := h.1 (by decide)
  exact ⟨h1.1, h1.2, h.2.2.2.1 UINT16_MAX⟩

/-- C5: construction fails exactly when `maxPos` is zero or exceeds the
system position limit; a successful construction yields
`maxPos + 1 + MaxPhraseSize` slots that are all zero (generation 0, every
position unset) and a generation counter of 1. -/
theorem make_spec (maxPosLimit maxPhraseSize max : Nat) :
    (make maxPosLimit maxPhraseSize max = none ↔ max = 0 ∨ maxPosLimit < max) ∧
    (∀ d, make maxPosLimit maxPhraseSize max = some d →
      d.positions.length = max + 1 + maxPhraseSize ∧
      (∀ i, d.slot i = Position.zero) ∧
      d.curSeq = 1 ∧ d.maxPos = max) := by
  unfold make
  by_cases hc : max ≠ 0 ∧ max ≤ maxPosLimit
  · obtain ⟨h1, h2⟩ := hc
    rw [if_pos ⟨h1, h2⟩]
    constructor
    · simp only [reduceCtorEq, false_iff]
      omega
    · intro d hd
      have hd' := Option.some_inj.mp hd
      subst hd'
      refine ⟨by simp, ?_, rfl, rfl⟩
      intro i
      simp only [slot, List.getD_eq_getElem?_getD, List.getElem?_replicate]
      split <;> simp
  · rw [if_neg hc]
    constructor
    · simp only [true_iff]
      omega
    · intro d hd
      exact absurd hd (by simp)

/-- Witness for C5: the constructions with `max = 5`, `max = 0` and
`max = 101` against limit 100. -/
theorem make_spec_witness :
    sampleSpace.positions.length = 16 ∧ sampleSpace.curSeq = 1 ∧ sampleSpace.maxPos = 5 ∧
    (make 100 10 0 = none ↔ (0 = 0 ∨ 100 < 0)) ∧
    (make 100 10 101 = none ↔ (101 = 0 ∨ 100 < 101)) := by
  have h := (make_spec 100 10 5).2 sampleSpace (by decide)
  exact ⟨h.1, h.2.2.1, h.2.2.2, (make_spec 100 10 0).1, (make_spec 100 10 101).1⟩

/-- C6: `unset(p)` with `0 < p ≤ maxPos` makes `test(T, p)` false for
every term id, changes only the slot's generation field — the stored
term id at `p` is preserved — and leaves every other position's slot and
test outcome unchanged. -/
theorem unset_local (maxPosLimit maxPhraseSize : Nat) (d : DocWordsSpace)
    (hr : Reachable maxPosLimit maxPhraseSize d) (p : Nat)
    (hp : 0 < p) (hpm : p ≤ d.maxPos) :
    (∀ T, (d.unset p).test T p = false) ∧
    ((d.unset p).slot p).termID = (d.slot p).termID ∧
    (∀ q, q ≠ p → (d.unset p).slot q = d.slot q) ∧
    (∀ T q, q ≠ p → (d.unset p).test T q = d.test T q) := by
  obtain ⟨hlen, hm0, hml, hc1, hcM, hguard, hseq⟩ := inv_of_reachable hr
  have hplt : p < d.positions.length := by omega
  refine ⟨?_, ?_, ?_, ?_⟩
  · intro T
    apply test_stale
    rw [slot_unset_self d p hplt, curSeq_unset]
    simp only []
    omega
  · rw [slot_unset_self d p hplt]
  · intro q hq
    exact slot_unset_ne d p q (fun h => hq h.symm)
  · intro T q hq
    unfold test
    rw [slot_unset_ne d p q (fun h => hq h.symm), curSeq_unset]

/-- Witness for C6 at the state with term 7 set at positions 3 and 4:
unsetting 3 clears the test there, keeps the stored term id, and leaves
position 4 untouched. -/
theorem unset_local_witness :
    (((sampleSpace.set 7 3).set 7 4).unset 3).test 7 3 = false ∧
    ((((sampleSpace.set 7 3).set 7 4).unset 3).slot 3).termID = 7 ∧
    (((sampleSpace.set 7 3).set 7 4).unset 3).test 7 4 =
      ((sampleSpace.set 7 3).set 7 4).test 7 4 := by
  have hr0 : Reachable 100 10 sampleSpace := Reachable.init 5 sampleSpace (by decide)
  have hr1 : Reachable 100 10 (sampleSpace.set 7 3) :=
    Reachable.set sampleSpace 7 3 hr0 (by decide) (by decide) (by decide)
  have hr2 : Reachable 100 10 ((sampleSpace.set 7 3).set 7 4) :=
    Reachable.set (sampleSpace.set 7 3) 7 4 hr1 (by decide) (by decide) (by decide)
  have h := unset_local 100 10 ((sampleSpace.set 7 3).set 7 4) hr2 3 (by decide) (by decide)
  refine ⟨h.1 7, ?_, h.2.2.2 7 4 (by decide)⟩
  rw [h.2.1]
  decide

/-- C7: in every reachable state the guard slots at offsets `maxPos + 1`
through `maxPos + MaxPhraseSize` are zero and read as unset for every
term id, and `reset` never modifies any slot beyond `maxPos`. -/
theorem guard_region (maxPosLimit maxPhraseSize : Nat) (d : DocWordsSpace)
    (hr : Reachable maxPosLimit maxPhraseSize d) (g : Nat)
    (hg1 : d.maxPos < g) (hg2 : g ≤ d.maxPos + maxPhraseSize) :
    d.slot g = Position.zero ∧ (∀ T, d.test T g = false) ∧
    (∀ i, d.maxPos < i → d.reset.slot i = d.slot i) := by
  obtain ⟨hlen, hm0, hml, hc1, hcM, hguard, hseq⟩ := inv_of_reachable hr
  refine ⟨hguard g hg1, ?_, fun i hi => slot_reset_untouched d i hi⟩
  intro T
  apply test_stale
  rw [hguard g hg1]
  show (0 : Nat) ≠ d.curSeq
  omega

/-- Witness for C7 at guard offset 8 of the state with `maxPos = 5` and
`MaxPhraseSize = 10`, after a set at position 3. -/
theorem guard_region_witness :
    (sampleSpace.set 7 3).slot 8 = Position.zero ∧
    (sampleSpace.set 7 3).test 7 8 = false ∧
    (sampleSpace.set 7 3).reset.slot 8 = (sampleSpace.set 7 3).slot 8 := by
  have hr1 : Reachable 100 10 (sampleSpace.set 7 3) :=
    Reachable.set sampleSpace 7 3 (Reachable.init 5 sampleSpace (by decide))
      (by decide) (by decide) (by decide)
  have h := guard_region 100 10 (sampleSpace.set 7 3) hr1 8 (by decide) (by decide)
  exact ⟨h.1, h.2.1 7, h.2.2 8 (by decide)⟩

end DocWordsSpace

/-- C8: the sequential collection executor returns exactly one filter per
source, in ascending source-index order: the output has length `n` and
its element `i` is the filter produced by the single-source execution on
source `i`. -/
theorem exec_query_collection_in_order {F : Type} (run : Nat → F) (n : Nat) :
    (exec_query_collection run n).length = n ∧
    (∀ i, i < n → (exec_query_collection run n)[i]? = some (run i)) := by
  constructor
  · simp [exec_query_collection]
  · intro i hi
    simp [exec_query_collection, List.getElem?_map, List.getElem?_range, hi]

/-- Witness for C8 with three sources and `run i = 10 * i`. -/
theorem exec_query_collection_in_order_witness :
    (exec_query_collection (fun i => 10 * i) 3).length = 3 ∧
    (exec_query_collection (fun i => 10 * i) 3)[1]? = some 10 :=
  ⟨(exec_query_collection_in_order (fun i => 10 * i) 3).1,
   (exec_query_collection_in_order (fun i => 10 * i) 3).2 1 (by decide)⟩

/-- C9: with zero sources both executors return the empty sequence and
the parallel executor spawns no task; with one source the parallel
executor spawns no task, executes inline, and returns the same singleton
as the sequential executor. -/
theorem degenerate_fanout {F : Type} (run : Nat → F) :
    exec_query_collection run 0 = [] ∧
    exec_query_par run 0 = [] ∧
    exec_query_par_spawned 0 = 0 ∧
    exec_query_par_spawned 1 = 0 ∧
    exec_query_par run 1 = [run 0] ∧
    exec_query_par run 1 = exec_query_collection run 1 :=
  ⟨rfl, rfl, rfl, rfl, rfl, rfl⟩

/-- Witness for C9 at a concrete filter function. -/
theorem degenerate_fanout_witness :
    exec_query_par (fun i => 10 * i) 0 = [] ∧
    exec_query_par (fun i => 10 * i) 1 = exec_query_collection (fun i => 10 * i) 1 :=
  ⟨(degenerate_fanout (fun i => 10 * i)).2.1,
   (degenerate_fanout (fun i => 10 * i)).2.2.2.2.2⟩

/-- C10: with more than one source the parallel executor returns one
filter per source but in reverse source-index order: the output has
length `n` and its element `j` is the filter produced for source
`n - 1 - j`. -/
theorem exec_query_par_reverse_order {F : Type} (run : Nat → F) (n : Nat) (hn : 1 < n) :
    (exec_query_par run n).length = n ∧
    (∀ j, j < n → (exec_query_par run n)[j]? = some (run (n - 1 - j))) := by
  rw [exec_query_par_eq_reverse run n hn]
  constructor
  · simp
  · intro j hj
    have hlt : n - 1 - j < n := by omega
    rw [List.getElem?_reverse (by simpa using hj)]
    simp only [List.length_map, List.length_range]
    simp [List.getElem?_map, List.getElem?_range, hlt]

/-- Witness for C10 with three sources and `run i = 10 * i`: the first
collected filter is the one of the last source. -/
theorem exec_query_par_reverse_order_witness :
    (exec_query_par (fun i => 10 * i) 3).length = 3 ∧
    (exec_query_par (fun i => 10 * i) 3)[0]? = some 20 :=
  ⟨(exec_query_par_reverse_order (fun i => 10 * i) 3 (by decide)).1,
   (exec_query_par_reverse_order (fun i => 10 * i) 3 (by decide)).2 0 (by decide)⟩

/-- C1 (refuted on the code): at the failing input of two sources whose
single-source runs produce distinguishable filters, the parallel executor
returns the filters in reverse source-index order, while the sequential
executor — and the claim, for both executors — places the filter of
source `i` at element `i`; the two outputs therefore differ. -/
theorem par_vs_seq_order_mismatch :
    exec_query_par (fun i => i) 2 = [1, 0] ∧
    exec_query_collection (fun i => i) 2 = [0, 1] ∧
    exec_query_par (fun i => i) 2 ≠ exec_query_collection (fun i => i) 2 := by
  have h := exec_query_par_eq_reverse (fun i => i) 2 (by decide)
  refine ⟨?_, by decide, ?_⟩
  · rw [h]
    decide
  · rw [h]
    decide

end Trinity
